import Mathlib

/-!
Verification of the coordinator/workflow core of the `Agents` repository
(`src/core/coordinator.py`, with the agent interface from
`src/core/base_agent.py`), as a shallow embedding.

Modelling conventions:
* Python values carried in message `content` and `context` are modelled by
  the small inductive `Val`; Python truthiness (as used by
  `if message.context.get("requires_response", False):`) is `Val.truthy`.
* Python exceptions are opaque payloads, modelled by `Err` (a string).
* An agent's `process` and `handle_error` coroutines are modelled as pure
  functions into `Except Err _`: `.error e` models the call raising `e`.
* The Python `dict` held in `AgentCoordinator.agents` is modelled as an
  insertion-ordered association list with dict-update semantics
  (`dictInsert`): assigning to an existing key updates the value in place
  and keeps its position, a new key is appended.  Iteration over
  `.values()` is iteration over the list.
* The `asyncio.Queue` is a FIFO list: `put` appends at the back, `get`
  takes the head.
* Calls that the coordinator makes into an agent (`process`,
  `handle_error`) and its not-found print are recorded as `Event`s so that
  "invoked exactly once" claims are expressible.
* The `while self._running` dispatch loop of `start()` is modelled as a
  small-step transition system `loopStep` on `LoopState`.  The program
  counter `LoopPC` has a state `inGet` for the loop suspended inside
  `await self.message_queue.get()`: with an empty queue that is the only
  suspension point of the loop body, hence the only place where external
  code (`stop()`, producers) can run while the queue is empty.
-/

/-- A Python value carried as message content or in a context dict. -/
inductive Val where
  | vbool (b : Bool)
  | vstr (s : String)
  | vint (n : Int)
  | vnone
deriving DecidableEq, Repr

/-- Python truthiness of a `Val`, as tested by `if v:`. -/
def Val.truthy : Val → Bool
  | .vbool b => b
  | .vstr s => !(s == "")
  | .vint n => !(n == 0)
  | .vnone => false

/-- An opaque exception payload. -/
abbrev Err := String

/-- The `context: Dict[str, Any]` of a message. -/
abbrev Ctx := List (String × Val)

/-- `context.get(k)`: first binding of `k`, if any. -/
def ctxGet (ctx : Ctx) (k : String) : Option Val :=
  (ctx.find? (fun p => p.1 == k)).map (·.2)

/-- `context.get(k, d)`: lookup with default. -/
def ctxGetD (ctx : Ctx) (k : String) (d : Val) : Val :=
  (ctxGet ctx k).getD d

/-- `Message`: the envelope passed between agents (`coordinator.py`). -/
structure Message where
  sender : String
  receiver : String
  content : Val
  message_type : String
  context : Ctx := []
deriving DecidableEq, Repr

/-- `AgentConfig` from `base_agent.py`. -/
structure AgentConfig where
  name : String
  description : String
  version : String := "0.1.0"
  capabilities : List String := []
deriving DecidableEq, Repr

/-- A `BaseAgent`: its config plus the behaviour of its `process` and
`handle_error` coroutines (`.error e` models the call raising `e`). -/
structure Agent where
  config : AgentConfig
  process : Val → Except Err Val
  handle_error : Err → Except Err Unit

/-- `BaseAgent.get_capabilities`. -/
def Agent.get_capabilities (a : Agent) : List String :=
  a.config.capabilities

/-- Lookup in the insertion-ordered dict `self.agents`
(`message.receiver in self.agents` / `self.agents[message.receiver]`). -/
def dictGet (l : List (String × Agent)) (k : String) : Option Agent :=
  (l.find? (fun p => p.1 == k)).map (·.2)

/-- Python dict assignment `d[k] = v`: update in place if `k` is present
(keeping its position), otherwise append. -/
def dictInsert (l : List (String × Agent)) (k : String) (v : Agent) :
    List (String × Agent) :=
  if l.any (fun p => p.1 == k) then
    l.map (fun p => if p.1 == k then (k, v) else p)
  else
    l ++ [(k, v)]

/-- The mutable state of an `AgentCoordinator`: the registry, the message
queue (front of the list = front of the queue) and the `_running` flag. -/
structure Coordinator where
  agents : List (String × Agent)
  message_queue : List Message
  running : Bool

/-- `AgentCoordinator.__init__`. -/
def Coordinator.init : Coordinator :=
  { agents := [], message_queue := [], running := false }

/-- `AgentCoordinator.register_agent`. -/
def register_agent (c : Coordinator) (agent : Agent) : Coordinator :=
  { c with agents := dictInsert c.agents agent.config.name agent }

/-- `AgentCoordinator.send_message`: enqueue at the back of the queue. -/
def send_message (c : Coordinator) (message : Message) : Coordinator :=
  { c with message_queue := c.message_queue ++ [message] }

/-- Observable calls the coordinator makes while routing a message. -/
inductive Event where
  | processCalled (agentName : String) (input : Val)
  | handleErrorCalled (agentName : String) (e : Err)
  | printedNotFound (receiver : String)
deriving DecidableEq, Repr

/-- `AgentCoordinator.route_message`.  Returns the updated coordinator and
the calls made, or `.error e` when an exception `e` escapes the method
(which in the source can only be an exception raised by `handle_error`,
since the `try` block covers `process` and the reply construction). -/
def route_message (c : Coordinator) (message : Message) :
    Except Err (Coordinator × List Event) :=
  match dictGet c.agents message.receiver with
  | some receiver =>
    match receiver.process message.content with
    | .ok result =>
      if (ctxGetD message.context "requires_response" (.vbool false)).truthy then
        let response : Message :=
          { sender := message.receiver
            receiver := message.sender
            content := result
            message_type := "response"
            context := message.context }
        .ok (send_message c response, [.processCalled message.receiver message.content])
      else
        .ok (c, [.processCalled message.receiver message.content])
    | .error e =>
      match receiver.handle_error e with
      | .ok _ =>
        .ok (c, [.processCalled message.receiver message.content,
                 .handleErrorCalled message.receiver e])
      | .error e2 => .error e2
  | none => .ok (c, [.printedNotFound message.receiver])

/-- `AgentCoordinator.get_agent_capabilities`. -/
def get_agent_capabilities (c : Coordinator) : List (String × List String) :=
  c.agents.map (fun p => (p.1, p.2.get_capabilities))

/-- The `for agent in self.agents.values()` scan of `delegate_task`. -/
def delegateScan (task_type : String) : List (String × Agent) → Option Agent
  | [] => none
  | (_, agent) :: rest =>
    if agent.get_capabilities.contains task_type then some agent
    else delegateScan task_type rest

/-- `AgentCoordinator.delegate_task` (the `task` argument is received but
never read by the source method). -/
def delegate_task (c : Coordinator) (task : Val) (task_type : String) :
    Option Agent :=
  delegateScan task_type c.agents

/-- `Workflow`: its step list and results list (the coordinator the Python
object holds a reference to is passed explicitly to `execute`). -/
structure Workflow where
  steps : List Message
  results : List Val

/-- `Workflow.__init__`. -/
def Workflow.init : Workflow :=
  { steps := [], results := [] }

/-- `Workflow.add_step`. -/
def add_step (w : Workflow) (message : Message) : Workflow :=
  { w with steps := w.steps ++ [message] }

/-- `Workflow.execute`: one `send_message` per step, in list order, then
return `self.results` (nothing is awaited and nothing writes `results`). -/
def Workflow.execute (w : Workflow) (c : Coordinator) :
    Coordinator × List Val :=
  (w.steps.foldl send_message c, w.results)

/-! ## The dispatch loop of `start()` as a transition system

`start()` is `self._running = True` followed by
`while self._running: message = await self.message_queue.get();
await self.route_message(message); self.message_queue.task_done()`.
With the queue empty, the only suspension point of the body is inside
`queue.get()`; with the queue non-empty, `get()` returns without
suspending.  The program counter therefore needs exactly: `check` (about
to evaluate the `while` condition), `inGet` (suspended inside
`queue.get()` / about to dequeue), `done` (the loop exited normally) and
`crashed e` (an exception escaped `route_message`, killing the loop). -/

/-- Program counter of the dispatch loop. -/
inductive LoopPC where
  | check
  | inGet
  | done
  | crashed (e : Err)
deriving DecidableEq, Repr

/-- A configuration of the running dispatch loop: the shared coordinator
state, the loop's program counter, and the log of messages it has
dequeued-and-routed so far (in order). -/
structure LoopState where
  coord : Coordinator
  pc : LoopPC
  routed : List Message

/-- One small step of the dispatch loop.  At `inGet` with an empty queue
the loop is blocked and the step is a stutter. -/
def loopStep (s : LoopState) : LoopState :=
  match s.pc with
  | .check => if s.coord.running then { s with pc := .inGet } else { s with pc := .done }
  | .inGet =>
    match s.coord.message_queue with
    | [] => s
    | m :: rest =>
      let c1 := { s.coord with message_queue := rest }
      match route_message c1 m with
      | .ok (c2, _) => { coord := c2, pc := .check, routed := s.routed ++ [m] }
      | .error e => { coord := c1, pc := .crashed e, routed := s.routed ++ [m] }
  | .done => s
  | .crashed _ => s

/-- External action: some other task calls `stop()`. -/
def extStop (s : LoopState) : LoopState :=
  { s with coord := { s.coord with running := false } }

/-- External action: some producer awaits `send_message m`. -/
def extSend (s : LoopState) (m : Message) : LoopState :=
  { s with coord := send_message s.coord m }

/-- Entering `start()`: sets `_running = True` and begins the loop. -/
def startState (c : Coordinator) : LoopState :=
  { coord := { c with running := true }, pc := .check, routed := [] }

/-- A sequence of `send_message` calls, in order. -/
def sendAll (c : Coordinator) (ms : List Message) : Coordinator :=
  ms.foldl send_message c

/-- Whether routing `m` against registry `agents` lets an exception escape
`route_message` (only possible when `process` raises and `handle_error`
raises in turn).  This depends only on the registry, not on the queue. -/
def routeCrash (agents : List (String × Agent)) (m : Message) : Bool :=
  match dictGet agents m.receiver with
  | none => false
  | some a =>
    match a.process m.content with
    | .ok _ => false
    | .error e =>
      match a.handle_error e with
      | .ok _ => false
      | .error _ => true

/-! ## Helper lemmas -/

theorem sendAll_message_queue (ms : List Message) :
    ∀ c : Coordinator, (sendAll c ms).message_queue = c.message_queue ++ ms := by
  induction ms with
  | nil => intro c; simp [sendAll]
  | cons m t ih =>
    intro c
    simp only [sendAll, List.foldl_cons]
    have := ih (send_message c m)
    simp only [sendAll] at this
    rw [this]
    simp [send_message]

theorem sendAll_agents (ms : List Message) :
    ∀ c : Coordinator, (sendAll c ms).agents = c.agents := by
  induction ms with
  | nil => intro c; simp [sendAll]
  | cons m t ih =>
    intro c
    simp only [sendAll, List.foldl_cons]
    have := ih (send_message c m)
    simp only [sendAll] at this
    rw [this]
    simp [send_message]

/-- When `routeCrash` is false, `route_message` returns normally, leaves
the registry and the running flag alone, and only ever appends to the
queue. -/
theorem route_message_ok_of_not_crash (c : Coordinator) (m : Message)
    (h : routeCrash c.agents m = false) :
    ∃ c2 evs, route_message c m = .ok (c2, evs) ∧
      c2.agents = c.agents ∧ c2.running = c.running ∧
      ∃ extra, c2.message_queue = c.message_queue ++ extra := by
  unfold routeCrash at h
  unfold route_message
  cases hget : dictGet c.agents m.receiver with
  | none => exact ⟨c, _, rfl, rfl, rfl, [], by simp⟩
  | some a =>
    rw [hget] at h
    cases hproc : a.process m.content with
    | ok r =>
      by_cases ht : (ctxGetD m.context "requires_response" (.vbool false)).truthy
      · simp only [hproc, ht, if_true]
        exact ⟨_, _, rfl, rfl, rfl, _, rfl⟩
      · simp only [hproc, ht, if_false]
        exact ⟨c, _, rfl, rfl, rfl, [], by simp⟩
    | error e =>
      simp only [hproc] at h
      cases herr : a.handle_error e with
      | ok u =>
        cases u
        simp only [hproc, herr]
        exact ⟨c, _, rfl, rfl, rfl, [], by simp⟩
      | error e2 => rw [herr] at h; exact absurd h (by simp)

/-- Routing a message to a registered receiver whose `process` raises `e`
while its `handle_error` returns normally: `handle_error` is called once
with `e`, nothing is enqueued, and `route_message` returns normally. -/
theorem route_message_error_branch (c : Coordinator) (m : Message) (a : Agent) (e : Err)
    (hrecv : dictGet c.agents m.receiver = some a)
    (hproc : a.process m.content = .error e)
    (herr : a.handle_error e = .ok ()) :
    route_message c m =
      .ok (c, [.processCalled m.receiver m.content,
               .handleErrorCalled m.receiver e]) := by
  simp [route_message, hrecv, hproc, herr]

/-- Routing a message whose receiver is not registered just prints and
returns the state unchanged. -/
theorem route_message_not_found (c : Coordinator) (m : Message)
    (h : dictGet c.agents m.receiver = none) :
    route_message c m = .ok (c, [.printedNotFound m.receiver]) := by
  simp [route_message, h]

/-- Running the loop for `2 * ms.length` small steps from the `check`
point with `ms ++ rest` queued routes exactly `ms`, in queue order, and
returns to the `check` point, provided routing no message of `ms` lets an
exception escape.  Replies generated along the way are appended behind
`rest`. -/
theorem loop_routes_in_order (ms : List Message) :
    ∀ (c : Coordinator) (rest r0 : List Message),
      c.running = true →
      c.message_queue = ms ++ rest →
      (∀ m ∈ ms, routeCrash c.agents m = false) →
      ∃ c' extras,
        loopStep^[2 * ms.length] ⟨c, .check, r0⟩ = ⟨c', .check, r0 ++ ms⟩ ∧
        c'.agents = c.agents ∧ c'.running = true ∧
        c'.message_queue = rest ++ extras := by
  induction ms with
  | nil =>
    intro c rest r0 hrun hq hok
    exact ⟨c, [], by simp, rfl, hrun, by simpa using hq⟩
  | cons m t ih =>
    intro c rest r0 hrun hq hok
    have hq' : c.message_queue = m :: (t ++ rest) := by simpa using hq
    have hlen : 2 * (m :: t).length = 2 * t.length + 1 + 1 := by
      rw [List.length_cons]; ring
    obtain ⟨c2, evs, heq, hag, hrun2, extra, hqueue⟩ :=
      route_message_ok_of_not_crash { c with message_queue := t ++ rest } m
        (hok m (by simp))
    have h1 : loopStep ⟨c, .check, r0⟩ = ⟨c, .inGet, r0⟩ := by
      simp [loopStep, hrun]
    have h2 : loopStep ⟨c, .inGet, r0⟩ = ⟨c2, .check, r0 ++ [m]⟩ := by
      simp only [loopStep, hq', heq]
    have hrun2' : c2.running = true := by rw [hrun2]; exact hrun
    have hqueue' : c2.message_queue = t ++ (rest ++ extra) := by
      rw [hqueue]; simp
    have hok' : ∀ m' ∈ t, routeCrash c2.agents m' = false := by
      intro m' hm'
      rw [hag]
      exact hok m' (by simp [hm'])
    obtain ⟨c', extras', hiter, hag', hrun', hq2⟩ :=
      ih c2 (rest ++ extra) (r0 ++ [m]) hrun2' hqueue' hok'
    refine ⟨c', extra ++ extras', ?_, ?_, hrun', ?_⟩
    · rw [hlen, Function.iterate_succ_apply, Function.iterate_succ_apply,
        h1, h2, hiter]
      simp
    · rw [hag', hag]
    · rw [hq2]
      simp

/-- Updating a key that occurs in the list makes it resolve to the new
value. -/
theorem dictGet_map_update (k : String) (v : Agent) :
    ∀ l : List (String × Agent), l.any (fun p => p.1 == k) = true →
      dictGet (l.map (fun p => if p.1 == k then (k, v) else p)) k = some v := by
  intro l
  induction l with
  | nil => intro h; simp at h
  | cons p t ih =>
    intro h
    cases hpk : p.1 == k with
    | true =>
      rw [List.map_cons, if_pos hpk]
      unfold dictGet
      rw [List.find?_cons_of_pos _ (by simp)]
      rfl
    | false =>
      have ht : t.any (fun p => p.1 == k) = true := by
        simp only [List.any_cons, hpk, Bool.false_or] at h
        exact h
      rw [List.map_cons, if_neg (by simp [hpk])]
      unfold dictGet
      rw [List.find?_cons_of_neg _ (by simp [hpk])]
      exact ih ht

/-- Appending a fresh key at the back makes it resolve to the new value. -/
theorem dictGet_append_fresh (k : String) (v : Agent) :
    ∀ l : List (String × Agent), l.any (fun p => p.1 == k) = false →
      dictGet (l ++ [(k, v)]) k = some v := by
  intro l
  induction l with
  | nil =>
    intro _
    unfold dictGet
    rw [List.nil_append, List.find?_cons_of_pos _ (by simp)]
    rfl
  | cons p t ih =>
    intro h
    simp only [List.any_cons, Bool.or_eq_false_iff] at h
    rw [List.cons_append]
    unfold dictGet
    rw [List.find?_cons_of_neg _ (by simp [h.1])]
    exact ih h.2

/-- `d[k] = v` always makes `k` resolve to `v`. -/
theorem dictGet_dictInsert_self (l : List (String × Agent)) (k : String) (v : Agent) :
    dictGet (dictInsert l k v) k = some v := by
  unfold dictInsert
  cases ha : l.any (fun p => p.1 == k) with
  | true => simp only [ha, if_true]; exact dictGet_map_update k v l ha
  | false => simp only [ha, Bool.false_eq_true, if_false]; exact dictGet_append_fresh k v l ha

/-- The in-place dict update preserves the key list (when an entry is
replaced, its key `p.1` satisfies `p.1 == k`, so the new key `k` is the
same string). -/
theorem keys_map_update (k : String) (v : Agent) :
    ∀ l : List (String × Agent),
      (l.map (fun p => if p.1 == k then (k, v) else p)).map Prod.fst =
        l.map Prod.fst := by
  intro l
  induction l with
  | nil => rfl
  | cons p t ih =>
    simp only [List.map_cons, ih]
    cases hpk : p.1 == k with
    | true =>
      have hk : p.1 = k := by simpa using hpk
      simp [hpk, hk]
    | false => simp [hpk]

/-- The key list after a dict update: unchanged when the key was present,
extended by the key otherwise. -/
theorem keys_dictInsert (l : List (String × Agent)) (k : String) (v : Agent) :
    (dictInsert l k v).map Prod.fst =
      if l.any (fun p => p.1 == k) then l.map Prod.fst
      else l.map Prod.fst ++ [k] := by
  unfold dictInsert
  cases ha : l.any (fun p => p.1 == k) with
  | true => simp only [ha, if_true]; exact keys_map_update k v l
  | false => simp [ha]

/-- Dict update preserves distinctness of the keys. -/
theorem nodup_keys_dictInsert (l : List (String × Agent)) (k : String) (v : Agent)
    (h : (l.map Prod.fst).Nodup) :
    ((dictInsert l k v).map Prod.fst).Nodup := by
  rw [keys_dictInsert]
  cases ha : l.any (fun p => p.1 == k) with
  | true => simpa [ha] using h
  | false =>
    simp only [ha, Bool.false_eq_true, if_false]
    refine List.Nodup.append h (List.nodup_singleton k) ?_
    intro x hx hxk
    rw [List.mem_singleton] at hxk
    subst hxk
    obtain ⟨p, hp, hpk⟩ := List.mem_map.mp hx
    have : l.any (fun p => p.1 == x) = true :=
      List.any_eq_true.mpr ⟨p, hp, by simp [hpk]⟩
    rw [this] at ha
    exact absurd ha (by simp)

/-- With distinct keys, a present key is carried by exactly one entry. -/
theorem countP_key_eq_one (k : String) :
    ∀ l : List (String × Agent), (l.map Prod.fst).Nodup →
      l.any (fun p => p.1 == k) = true →
      l.countP (fun p => p.1 == k) = 1 := by
  intro l
  induction l with
  | nil => intro _ h; simp at h
  | cons p t ih =>
    intro hnd hany
    rw [List.map_cons, List.nodup_cons] at hnd
    rw [List.countP_cons]
    cases hpk : p.1 == k with
    | true =>
      have hk : p.1 = k := by simpa using hpk
      have hzero : t.countP (fun q => q.1 == k) = 0 := by
        rw [List.countP_eq_zero]
        intro q hq hqk
        have : q.1 = k := by simpa using hqk
        exact hnd.1 (List.mem_map.mpr ⟨q, hq, by rw [this, hk]⟩)
      simp [hpk, hzero]
    | false =>
      have ht : t.any (fun q => q.1 == k) = true := by
        simp only [List.any_cons, hpk, Bool.false_or] at hany
        exact hany
      simp [hpk, ih hnd.2 ht]

/-- A key that resolves occurs in the list. -/
theorem any_key_of_dictGet_some (l : List (String × Agent)) (k : String) (v : Agent)
    (h : dictGet l k = some v) : l.any (fun p => p.1 == k) = true := by
  unfold dictGet at h
  cases hf : l.find? (fun p => p.1 == k) with
  | none => rw [hf] at h; simp at h
  | some q =>
    have hq2 : (q.1 == k) = true := by
      have := List.find?_some hf
      simpa using this
    exact List.any_eq_true.mpr ⟨q, List.mem_of_find?_eq_some hf, hq2⟩

/-! ## Concrete fixtures used by the witnesses -/

/-! ## Concrete fixtures used by the witnesses -/

/-- An agent whose `process` returns its input unchanged. -/
def echoAgent : Agent :=
  { config := { name := "echo", description := "echoes its input",
                version := "0.1.0", capabilities := ["echo"] }
    process := fun v => .ok v
    handle_error := fun _ => .ok () }

/-- An agent whose `process` always raises and whose `handle_error`
returns normally. -/
def failAgent : Agent :=
  { config := { name := "failer", description := "always raises",
                version := "0.1.0", capabilities := ["failing"] }
    process := fun _ => .error "boom"
    handle_error := fun _ => .ok () }

/-- An agent whose `process` raises and whose `handle_error` raises in
turn. -/
def doubleFailAgent : Agent :=
  { config := { name := "bad", description := "handler also raises",
                version := "0.1.0", capabilities := [] }
    process := fun _ => .error "boom"
    handle_error := fun _ => .error "handler-boom" }

/-- A coordinator with just the echo agent registered. -/
def cEcho : Coordinator :=
  { agents := [("echo", echoAgent)], message_queue := [], running := false }

/-- A request to the echo agent that asks for a response. -/
def msgReqTrue : Message :=
  { sender := "t", receiver := "echo", content := .vstr "hi",
    message_type := "process", context := [("requires_response", .vbool true)] }

/-! ## The claims -/

/-- C1: for every message whose receiver is registered, if `process`
succeeds with result `r` and the context maps `"requires_response"` to
`True`, then `route_message` returns normally having enqueued exactly one
reply whose sender is the original receiver, whose receiver is the
original sender, whose content is `r`, whose `message_type` is
`"response"` and whose context is the original context unchanged; if the
key maps to `False` or is absent, it enqueues nothing and the coordinator
is returned unchanged. -/
theorem claim_C1_response (c : Coordinator) (m : Message) (a : Agent) (r : Val)
    (hrecv : dictGet c.agents m.receiver = some a)
    (hproc : a.process m.content = .ok r) :
    (ctxGet m.context "requires_response" = some (.vbool true) →
      route_message c m =
        .ok ({ c with message_queue := c.message_queue ++
                [{ sender := m.receiver, receiver := m.sender, content := r,
                   message_type := "response", context := m.context }] },
             [.processCalled m.receiver m.content])) ∧
    ((ctxGet m.context "requires_response" = some (.vbool false) ∨
        ctxGet m.context "requires_response" = none) →
      route_message c m = .ok (c, [.processCalled m.receiver m.content])) := by
  constructor
  · intro hctx
    simp [route_message, hrecv, hproc, ctxGetD, hctx, Val.truthy, send_message]
  · rintro (hctx | hctx) <;>
      simp [route_message, hrecv, hproc, ctxGetD, hctx, Val.truthy]

/-- Witness for C1 at a concrete input: the echo agent replies to a
request that demands a response. -/
theorem claim_C1_response_witness :
    route_message cEcho msgReqTrue =
      .ok ({ cEcho with message_queue := cEcho.message_queue ++
              [{ sender := msgReqTrue.receiver, receiver := msgReqTrue.sender,
                 content := .vstr "hi", message_type := "response",
                 context := msgReqTrue.context }] },
           [.processCalled msgReqTrue.receiver msgReqTrue.content]) :=
  (claim_C1_response cEcho msgReqTrue echoAgent (.vstr "hi") rfl rfl).1 rfl

/-- C2: for every message whose receiver is registered, if `process`
raises `e` (and the agent's `handle_error` returns normally, as §4.1 of
the spec requires of agents), then `handle_error` of that same agent is
invoked exactly once with `e`, no reply is enqueued regardless of
`requires_response`, `route_message` returns normally, and the dispatch
loop goes back to its `check` point and continues. -/
theorem claim_C2_process_error (c : Coordinator) (m : Message) (a : Agent) (e : Err)
    (hrecv : dictGet c.agents m.receiver = some a)
    (hproc : a.process m.content = .error e)
    (herr : a.handle_error e = .ok ()) :
    route_message c m =
      .ok (c, [.processCalled m.receiver m.content,
               .handleErrorCalled m.receiver e]) ∧
    ([Event.processCalled m.receiver m.content,
        Event.handleErrorCalled m.receiver e].count
      (Event.handleErrorCalled m.receiver e) = 1) ∧
    (∀ rest r0,
      (loopStep ⟨{ c with message_queue := m :: rest }, .inGet, r0⟩).pc = .check) := by
  refine ⟨route_message_error_branch c m a e hrecv hproc herr, ?_, ?_⟩
  · simp [List.count_cons]
  · intro rest r0
    have h1 : route_message { c with message_queue := rest } m =
        .ok ({ c with message_queue := rest },
             [.processCalled m.receiver m.content,
              .handleErrorCalled m.receiver e]) :=
      route_message_error_branch { c with message_queue := rest } m a e hrecv hproc herr
    simp [loopStep, h1]

/-- Witness for C2 at a concrete input: an agent whose `process` raises
`"boom"`. -/
theorem claim_C2_process_error_witness :
    route_message
        { agents := [("failer", failAgent)], message_queue := [], running := false }
        { sender := "t", receiver := "failer", content := .vnone,
          message_type := "process",
          context := [("requires_response", .vbool true)] } =
      .ok ({ agents := [("failer", failAgent)], message_queue := [], running := false },
           [.processCalled "failer" .vnone, .handleErrorCalled "failer" "boom"]) :=
  (claim_C2_process_error
    { agents := [("failer", failAgent)], message_queue := [], running := false }
    { sender := "t", receiver := "failer", content := .vnone,
      message_type := "process",
      context := [("requires_response", .vbool true)] }
    failAgent "boom" rfl rfl rfl).1

/-- C3: for every message whose receiver name is not registered,
`route_message` does not raise, enqueues nothing, leaves the registry and
the queue unchanged, and the dispatch loop goes back to its `check`
point and continues. -/
theorem claim_C3_unknown_receiver (c : Coordinator) (m : Message)
    (hrecv : dictGet c.agents m.receiver = none) :
    route_message c m = .ok (c, [.printedNotFound m.receiver]) ∧
    (∀ rest r0,
      (loopStep ⟨{ c with message_queue := m :: rest }, .inGet, r0⟩).pc = .check) := by
  refine ⟨route_message_not_found c m hrecv, ?_⟩
  intro rest r0
  have h1 : route_message { c with message_queue := rest } m =
      .ok ({ c with message_queue := rest }, [.printedNotFound m.receiver]) :=
    route_message_not_found { c with message_queue := rest } m hrecv
  simp [loopStep, h1]

/-- Witness for C3 at a concrete input: a message addressed to an
unregistered name is dropped with the state unchanged. -/
theorem claim_C3_unknown_receiver_witness :
    route_message cEcho
        { sender := "t", receiver := "ghost", content := .vnone,
          message_type := "process", context := [] } =
      .ok (cEcho, [.printedNotFound "ghost"]) :=
  (claim_C3_unknown_receiver cEcho
    { sender := "t", receiver := "ghost", content := .vnone,
      message_type := "process", context := [] } rfl).1

/-- First of two agents registered under the same name `"x"`. -/
def agentX1 : Agent :=
  { config := { name := "x", description := "first", version := "0.1.0",
                capabilities := ["one"] }
    process := fun _ => .ok .vnone
    handle_error := fun _ => .ok () }

/-- Second of two agents registered under the same name `"x"`. -/
def agentX2 : Agent :=
  { config := { name := "x", description := "second", version := "0.1.0",
                capabilities := ["two"] }
    process := fun _ => .ok .vnone
    handle_error := fun _ => .ok () }

/-- C5: starting from a registry with distinct names, registering two
agents under the same name `n` leaves exactly one entry for `n`, the
later registration wins the lookup, no error is raised (registration is
total), and `get_agent_capabilities` never carries two entries for one
name. -/
theorem claim_C5_last_write_wins (c : Coordinator) (a1 a2 : Agent) (n : String)
    (hn : (c.agents.map Prod.fst).Nodup)
    (h1 : a1.config.name = n) (h2 : a2.config.name = n) :
    dictGet (register_agent (register_agent c a1) a2).agents n = some a2 ∧
    (register_agent (register_agent c a1) a2).agents.countP
      (fun p => p.1 == n) = 1 ∧
    ((get_agent_capabilities (register_agent (register_agent c a1) a2)).map
      Prod.fst).Nodup := by
  have hag : (register_agent (register_agent c a1) a2).agents =
      dictInsert (dictInsert c.agents n a1) n a2 := by
    simp [register_agent, h1, h2]
  have hget : dictGet (dictInsert (dictInsert c.agents n a1) n a2) n = some a2 :=
    dictGet_dictInsert_self (dictInsert c.agents n a1) n a2
  have hnd : ((dictInsert (dictInsert c.agents n a1) n a2).map Prod.fst).Nodup :=
    nodup_keys_dictInsert _ n a2 (nodup_keys_dictInsert _ n a1 hn)
  have hany : (dictInsert (dictInsert c.agents n a1) n a2).any
      (fun p => p.1 == n) = true :=
    any_key_of_dictGet_some _ n a2 hget
  refine ⟨by rw [hag]; exact hget, by rw [hag]; exact countP_key_eq_one n _ hnd hany, ?_⟩
  have hkeys : (get_agent_capabilities (register_agent (register_agent c a1) a2)).map
      Prod.fst = (register_agent (register_agent c a1) a2).agents.map Prod.fst := by
    simp [get_agent_capabilities, List.map_map]
  rw [hkeys, hag]
  exact hnd

/-- Witness for C5 at a concrete input: two agents named `"x"` registered
into the empty coordinator. -/
theorem claim_C5_last_write_wins_witness :
    dictGet (register_agent (register_agent Coordinator.init agentX1) agentX2).agents
      "x" = some agentX2 ∧
    (register_agent (register_agent Coordinator.init agentX1) agentX2).agents.countP
      (fun p => p.1 == "x") = 1 ∧
    ((get_agent_capabilities
        (register_agent (register_agent Coordinator.init agentX1) agentX2)).map
      Prod.fst).Nodup :=
  claim_C5_last_write_wins Coordinator.init agentX1 agentX2 "x"
    (by simp [Coordinator.init]) rfl rfl

/-- C7: `delegate_task` is exactly the first-match scan over the registry
in registration (insertion) order: it returns the first agent whose
capability list contains the tag, and `none` iff no registered agent's
capability list contains the tag. -/
theorem claim_C7_capability_lookup (c : Coordinator) (task : Val) (task_type : String) :
    delegate_task c task task_type =
      (c.agents.find? (fun p => p.2.get_capabilities.contains task_type)).map
        Prod.snd ∧
    (delegate_task c task task_type = none ↔
      ∀ p ∈ c.agents, task_type ∉ p.2.get_capabilities) := by
  have key : ∀ l : List (String × Agent),
      delegateScan task_type l =
        (l.find? (fun p => p.2.get_capabilities.contains task_type)).map Prod.snd := by
    intro l
    induction l with
    | nil => rfl
    | cons p t ih =>
      obtain ⟨nm, ag⟩ := p
      cases hp : ag.get_capabilities.contains task_type with
      | true =>
        rw [delegateScan, if_pos hp]
        rw [List.find?_cons_of_pos _ (by simpa using hp)]
        rfl
      | false =>
        have hneg : ¬ (ag.get_capabilities.contains task_type = true) := by
          rw [hp]; simp
        have hfind : List.find? (fun p => p.2.get_capabilities.contains task_type)
              ((nm, ag) :: t) =
            List.find? (fun p => p.2.get_capabilities.contains task_type) t :=
          List.find?_cons_of_neg t hneg
        rw [delegateScan, if_neg hneg, hfind]
        exact ih
  constructor
  · exact key c.agents
  · rw [delegate_task, key c.agents]
    rw [Option.map_eq_none']
    rw [List.find?_eq_none]
    constructor
    · intro h p hp hmem
      exact h p hp (List.elem_iff.mpr hmem)
    · intro h p hp hcon
      exact h p hp (List.elem_iff.mp hcon)

/-- C8: executing a workflow built by `add_step` calls sends exactly one
message per step, in step order (the queue receives exactly the step list
at its back), touches neither the registry nor the running flag, does not
route or await anything, and returns the results list, which is empty at
return time. -/
theorem claim_C8_workflow_execute (c : Coordinator) (ms : List Message) :
    ((ms.foldl add_step Workflow.init).execute c).1.message_queue =
      c.message_queue ++ ms ∧
    ((ms.foldl add_step Workflow.init).execute c).1.agents = c.agents ∧
    ((ms.foldl add_step Workflow.init).execute c).1.running = c.running ∧
    ((ms.foldl add_step Workflow.init).execute c).2 = [] := by
  have hsteps : ∀ w : Workflow, (ms.foldl add_step w).steps = w.steps ++ ms ∧
      (ms.foldl add_step w).results = w.results := by
    clear c
    induction ms with
    | nil => intro w; simp
    | cons m t ih =>
      intro w
      simp only [List.foldl_cons]
      obtain ⟨hs, hr⟩ := ih (add_step w m)
      rw [hs, hr]
      simp [add_step]
  obtain ⟨hs, hr⟩ := hsteps Workflow.init
  have hq : ((ms.foldl add_step Workflow.init).execute c).1.message_queue =
      c.message_queue ++ ms := by
    show ((ms.foldl add_step Workflow.init).steps.foldl send_message c).message_queue = _
    rw [hs]
    have := sendAll_message_queue ((Workflow.init.steps) ++ ms) c
    simpa [sendAll, Workflow.init] using this
  have hagents : ((ms.foldl add_step Workflow.init).execute c).1.agents = c.agents := by
    show ((ms.foldl add_step Workflow.init).steps.foldl send_message c).agents = _
    have := sendAll_agents (ms.foldl add_step Workflow.init).steps c
    simpa [sendAll] using this
  have hrunning : ((ms.foldl add_step Workflow.init).execute c).1.running = c.running := by
    show ((ms.foldl add_step Workflow.init).steps.foldl send_message c).running = _
    have : ∀ (l : List Message) (c0 : Coordinator),
        (l.foldl send_message c0).running = c0.running := by
      intro l
      induction l with
      | nil => intro c0; rfl
      | cons m t ih =>
        intro c0
        simp only [List.foldl_cons]
        rw [ih]
        rfl
    exact this _ c
  refine ⟨hq, hagents, hrunning, ?_⟩
  show (ms.foldl add_step Workflow.init).results = []
  rw [hr]
  rfl

/-- Routing a message to a registered receiver whose `process` raises `e`
and whose `handle_error` then raises `e2` lets `e2` escape
`route_message`. -/
theorem route_message_handler_raises (c : Coordinator) (m : Message) (a : Agent)
    (e e2 : Err)
    (hrecv : dictGet c.agents m.receiver = some a)
    (hproc : a.process m.content = .error e)
    (herr : a.handle_error e = .error e2) :
    route_message c m = .error e2 := by
  simp [route_message, hrecv, hproc, herr]

/-- A message that got sent while the queue was empty. -/
def lateMsg : Message :=
  { sender := "t", receiver := "echo", content := .vstr "late",
    message_type := "process", context := [] }

/-- The dispatch loop idle: queue empty, suspended inside `queue.get()`
(the only suspension point of the loop body when the queue is empty),
`_running` still true. -/
def idleLoop : LoopState :=
  { coord := { agents := [("echo", echoAgent)], message_queue := [], running := true }
    pc := .inGet
    routed := [] }

/-- C4 (amended): `stop()` called while the loop is idle (queue empty,
suspended in the dequeue) does NOT terminate the loop at an iteration
boundary: the loop stays blocked unchanged (first conjunct, a stutter
fixed point, so no amount of further loop steps terminates it).  If a
message is then enqueued, the loop dequeues and routes that one further
message and only then observes the flag and terminates at the next
iteration boundary. -/
theorem claim_C4_stop_while_idle (co : Coordinator) (r0 : List Message) (m : Message)
    (hq : co.message_queue = [])
    (hok : routeCrash co.agents m = false) :
    loopStep (extStop ⟨co, .inGet, r0⟩) = extStop ⟨co, .inGet, r0⟩ ∧
    (loopStep (extSend (extStop ⟨co, .inGet, r0⟩) m)).pc = .check ∧
    (loopStep (extSend (extStop ⟨co, .inGet, r0⟩) m)).routed = r0 ++ [m] ∧
    (loopStep (loopStep (extSend (extStop ⟨co, .inGet, r0⟩) m))).pc = .done ∧
    (loopStep (loopStep (extSend (extStop ⟨co, .inGet, r0⟩) m))).routed = r0 ++ [m] := by
  obtain ⟨c2, evs, heq, hag, hrun, extra, hque⟩ :=
    route_message_ok_of_not_crash { co with running := false, message_queue := [] } m hok
  have hstut : loopStep (extStop ⟨co, .inGet, r0⟩) = extStop ⟨co, .inGet, r0⟩ := by
    simp [loopStep, extStop, hq]
  have h2 : loopStep (extSend (extStop ⟨co, .inGet, r0⟩) m) = ⟨c2, .check, r0 ++ [m]⟩ := by
    simp [loopStep, extStop, extSend, send_message, hq, heq]
  have hrun2 : c2.running = false := by rw [hrun]
  have h3 : loopStep (⟨c2, .check, r0 ++ [m]⟩ : LoopState) =
      ⟨c2, .done, r0 ++ [m]⟩ := by
    simp [loopStep, hrun2]
  exact ⟨hstut, by rw [h2], by rw [h2], by rw [h2, h3], by rw [h2, h3]⟩

/-- Witness for the amended C4 at a concrete input. -/
theorem claim_C4_stop_while_idle_witness :
    loopStep (extStop ⟨idleLoop.coord, .inGet, []⟩) =
      extStop ⟨idleLoop.coord, .inGet, []⟩ ∧
    (loopStep (extSend (extStop ⟨idleLoop.coord, .inGet, []⟩) lateMsg)).pc = .check ∧
    (loopStep (extSend (extStop ⟨idleLoop.coord, .inGet, []⟩) lateMsg)).routed =
      [] ++ [lateMsg] ∧
    (loopStep (loopStep (extSend (extStop ⟨idleLoop.coord, .inGet, []⟩) lateMsg))).pc =
      .done ∧
    (loopStep (loopStep (extSend (extStop ⟨idleLoop.coord, .inGet, []⟩) lateMsg))).routed =
      [] ++ [lateMsg] :=
  claim_C4_stop_while_idle idleLoop.coord [] lateMsg rfl rfl

/-- Counterexample to C4 as stated: from the concrete idle configuration
`idleLoop`, after `stop()` the loop does not move (it stays suspended in
the dequeue rather than terminating at an iteration boundary), and in the
continuation where a message is enqueued the loop performs one further
dequeue-and-route of that message before it terminates — so "terminates
at its next iteration boundary with no further routeMessage calls" fails
on the code. -/
theorem claim_C4_counterexample :
    loopStep (extStop idleLoop) = extStop idleLoop ∧
    (loopStep (extStop idleLoop)).pc ≠ LoopPC.done ∧
    (loopStep (extSend (extStop idleLoop) lateMsg)).routed = [lateMsg] ∧
    (loopStep (loopStep (extSend (extStop idleLoop) lateMsg))).pc = LoopPC.done := by
  refine ⟨rfl, ?_, ?_, ?_⟩ <;> decide

/-- C6: for every sequence of `send_message` calls made into an empty
queue before any dequeue occurs, running the dispatch loop dequeues and
routes exactly those messages in the order of the calls (provided no
routing step lets an exception escape and kill the loop). -/
theorem claim_C6_fifo (c0 : Coordinator) (ms : List Message)
    (hq : c0.message_queue = [])
    (hok : ∀ m ∈ ms, routeCrash c0.agents m = false) :
    (loopStep^[2 * ms.length] (startState (sendAll c0 ms))).routed = ms := by
  have hqueue : ({ sendAll c0 ms with running := true } : Coordinator).message_queue =
      ms ++ [] := by
    show (sendAll c0 ms).message_queue = ms ++ []
    rw [sendAll_message_queue, hq]
    simp
  have hok' : ∀ m ∈ ms,
      routeCrash ({ sendAll c0 ms with running := true } : Coordinator).agents m = false := by
    intro m hm
    show routeCrash (sendAll c0 ms).agents m = false
    rw [sendAll_agents]
    exact hok m hm
  obtain ⟨c', extras, hiter, _, _, _⟩ :=
    loop_routes_in_order ms { sendAll c0 ms with running := true } [] [] rfl hqueue hok'
  show (loopStep^[2 * ms.length]
      ⟨{ sendAll c0 ms with running := true }, .check, []⟩).routed = ms
  rw [hiter]
  simp

/-- Message routed first in the C6 witness run. -/
def msgA : Message :=
  { sender := "t", receiver := "echo", content := .vstr "a",
    message_type := "process", context := [] }

/-- Message routed second in the C6 witness run (unregistered receiver:
it is still dequeued in order and dropped). -/
def msgB : Message :=
  { sender := "t", receiver := "ghost", content := .vstr "b",
    message_type := "process", context := [] }

/-- Witness for C6 at a concrete input: two messages sent before the loop
runs are routed in send order. -/
theorem claim_C6_fifo_witness :
    (loopStep^[2 * [msgA, msgB].length]
      (startState (sendAll cEcho [msgA, msgB]))).routed = [msgA, msgB] :=
  claim_C6_fifo cEcho [msgA, msgB] rfl (by decide)

/-- C9: if the receiver's `process` raises `e` and that agent's
`handle_error` raises `e2` in turn, then `e2` escapes `route_message`,
and the dispatch loop that dequeued the message moves to a crashed state
that no further step leaves — the loop is terminated by the exception. -/
theorem claim_C9_handler_raises (c : Coordinator) (m : Message)
    (rest r0 : List Message) (a : Agent) (e e2 : Err)
    (hq : c.message_queue = m :: rest)
    (hrecv : dictGet c.agents m.receiver = some a)
    (hproc : a.process m.content = .error e)
    (herr : a.handle_error e = .error e2) :
    route_message c m = .error e2 ∧
    loopStep ⟨c, .inGet, r0⟩ =
      ⟨{ c with message_queue := rest }, .crashed e2, r0 ++ [m]⟩ ∧
    loopStep (loopStep ⟨c, .inGet, r0⟩) = loopStep ⟨c, .inGet, r0⟩ := by
  have h1 : route_message c m = .error e2 :=
    route_message_handler_raises c m a e e2 hrecv hproc herr
  have h1' : route_message { c with message_queue := rest } m = .error e2 :=
    route_message_handler_raises { c with message_queue := rest } m a e e2
      hrecv hproc herr
  have h2 : loopStep ⟨c, .inGet, r0⟩ =
      ⟨{ c with message_queue := rest }, .crashed e2, r0 ++ [m]⟩ := by
    simp [loopStep, hq, h1']
  refine ⟨h1, h2, ?_⟩
  rw [h2]
  rfl

/-- A probe message for the doubly-failing agent. -/
def msgBad : Message :=
  { sender := "t", receiver := "bad", content := .vnone,
    message_type := "process", context := [] }

/-- A coordinator mid-run whose queue head is addressed to the doubly
failing agent. -/
def cBad : Coordinator :=
  { agents := [("bad", doubleFailAgent)], message_queue := [msgBad],
    running := true }

/-- Witness for C9 at a concrete input. -/
theorem claim_C9_handler_raises_witness :
    route_message cBad msgBad = .error "handler-boom" ∧
    loopStep ⟨cBad, .inGet, []⟩ =
      ⟨{ cBad with message_queue := [] }, .crashed "handler-boom", [] ++ [msgBad]⟩ ∧
    loopStep (loopStep ⟨cBad, .inGet, []⟩) = loopStep ⟨cBad, .inGet, []⟩ :=
  claim_C9_handler_raises cBad msgBad [] [] doubleFailAgent "boom" "handler-boom"
    rfl rfl rfl rfl

/-- C10: `delegate_task` never reads its `task` argument: for one registry
state and tag, any two task payloads give the same chosen agent (the
embedding is a pure read of the coordinator, so the call also leaves the
coordinator state unchanged). -/
theorem claim_C10_task_independent (c : Coordinator) (t1 t2 : Val) (task_type : String) :
    delegate_task c t1 task_type = delegate_task c t2 task_type := rfl
